import Mathlib

/-!
Shallow embedding of the workin-wheel control scripts:
`load_test.py` (random target, half-station pulses, granularity 2) and
`reader.py` (calendar target, full-station pulses, granularity 1).
Sessions are modelled as natural-number handles; outcomes of the external
calls (connect attempts, `Motor.set_power`) are Boolean oracle functions
consumed in call order (`true` means the call returned, `false` means it
raised an exception).
-/

/-- Movement-plan computation shared by both scripts:
`slices = current_wheel_position - next_wheel_position`,
`direction = math.copysign(1, slices)`, and the pulse count is
`abs(slices)` times the granularity (2 in `load_test.py`, 1 in
`reader.py`).  The whole block is guarded by
`if current_wheel_position != next_wheel_position`, so the plan is empty
when the positions agree. -/
def computePlan (current target : Int) (granularity : Nat) : Int × Nat :=
  if current = target then (0, 0)
  else (Int.sign (current - target), (current - target).natAbs * granularity)

/-- Result of running the pulse loop of `reader.py`'s `control_wheel`:
final value of `current_wheel_position`, whether a `set_power` call
raised, how many `set_power` calls were issued, and the successive
values taken by `current_wheel_position` (one entry per executed
`current_wheel_position -= int(direction)`). -/
structure PulseRun where
  pos : Int
  raised : Bool
  attempts : Nat
  trace : List Int
deriving DecidableEq

/-- The `for i in range(abs(slices))` loop of `control_wheel`
(reader.py lines 132-134): issue `set_power`, and only if it returned,
decrement the position by `int(direction)` and continue; if it raised,
stop at once (the decrement for the failing pulse is never executed). -/
def pulse_run (ok : Nat → Bool) (dir : Int) : Nat → Nat → Int → PulseRun
  | 0, _, pos => ⟨pos, false, 0, []⟩
  | n + 1, i, pos =>
    if ok i then
      let r := pulse_run ok dir n (i + 1) (pos - dir)
      ⟨r.pos, r.raised, r.attempts + 1, (pos - dir) :: r.trace⟩
    else
      ⟨pos, true, 1, []⟩

/-- `control_wheel` of reader.py.  `next = none` models
`get_next_wheel_position()` returning `None`: the guard
`current_wheel_position != next_wheel_position` is then still true
(an int never equals `None`), and `current_wheel_position - None`
raises a `TypeError` before the `try` block, which `control_wheel`
does not catch — modelled as the `none` result. -/
def cw_run (current : Int) (next : Option Int) (ok : Nat → Bool) : Option PulseRun :=
  match next with
  | none => none
  | some t =>
    if current = t then some ⟨current, false, 0, []⟩
    else some (pulse_run ok (Int.sign (current - t)) (current - t).natAbs 0 current)

/-- Observable result of `control_wheel`: the returned pair
`(current_wheel_position, exception-or-None)`, or the uncaught
`TypeError` of the `None`-target case. -/
inductive CwResult where
  | ok (pos : Int)
  | caught (pos : Int)
  | typeError
deriving DecidableEq

def control_wheel (current : Int) (next : Option Int) (ok : Nat → Bool) : CwResult :=
  match cw_run current next ok with
  | none => CwResult.typeError
  | some r => if r.raised then CwResult.caught r.pos else CwResult.ok r.pos

/-- Number of `set_power` calls issued by one `control_wheel` call. -/
def cw_attempts (current : Int) (next : Option Int) (ok : Nat → Bool) : Nat :=
  match cw_run current next ok with
  | none => 0
  | some r => r.attempts

/-- reader.py `connect` (lines 49-56): up to 50 attempts; the first
successful attempt returns a session (modelled by its attempt index);
if all 50 fail the function raises (`none`). -/
def reader_connect_aux (catt : Nat → Bool) : Nat → Nat → Option Nat
  | _, 0 => none
  | i, n + 1 => if catt i then some i else reader_connect_aux catt (i + 1) n

def reader_connect (catt : Nat → Bool) : Option Nat :=
  reader_connect_aux catt 0 50

/-- State of reader.py's main loop: the `robot` variable
(`none` = disconnected, to be reconnected on the next cycle) and
`current_wheel_position`. -/
structure ReaderState where
  robot : Option Nat
  pos : Int
deriving DecidableEq

/-- Outcome of one iteration of reader.py's `while True` loop
(lines 167-186): either the loop continues with a new state (recording
whether the 15-unit `time.sleep` ran), or an exception escaped the
loop body unhandled and the process crashes. -/
inductive CycleResult where
  | next (st : ReaderState) (slept : Bool)
  | crash
deriving DecidableEq

/-- The body of the loop once a live session `s` is in hand:
`Motor.from_robot` (oracle `motorOk`; on raise the handler closes the
session and sets `robot = None`, no sleep), then `control_wheel`.
A `TypeError` from the `None` target propagates to the handler (session
closed, `robot = None`); a caught pulse failure is returned as a value,
so the handler does NOT run: the session is kept and the sleep skipped;
a clean return keeps the session and sleeps. -/
def reader_cycle_connected (s : Nat) (pos : Int) (motorOk : Bool)
    (next : Option Int) (ok : Nat → Bool) : CycleResult :=
  if motorOk then
    match cw_run pos next ok with
    | none => CycleResult.next ⟨none, pos⟩ false
    | some r =>
      if r.raised then CycleResult.next ⟨some s, r.pos⟩ false
      else CycleResult.next ⟨some s, r.pos⟩ true
  else CycleResult.next ⟨none, pos⟩ false

/-- One full iteration of reader.py's main loop.  If `robot` is `None`
the cycle first calls `connect`; if all 50 connect attempts fail,
`connect` raises, the `except` handler runs `await robot.close()` with
`robot` still `None`, and that `AttributeError` escapes the loop
unhandled: the process crashes. -/
def reader_cycle (st : ReaderState) (catt : Nat → Bool) (motorOk : Bool)
    (next : Option Int) (ok : Nat → Bool) : CycleResult :=
  match st.robot with
  | some s => reader_cycle_connected s st.pos motorOk next ok
  | none =>
    match reader_connect catt with
    | some s => reader_cycle_connected s st.pos motorOk next ok
    | none => CycleResult.crash

/-- load_test.py initial-connect loop (lines 30-36): `n_try = 10`;
`while n_try:` attempt to connect, `break` on success (leaving `n_try`
untouched), decrement on failure.  Returns the final value of `n_try`. -/
def lt_connect_loop (outcome : Nat → Bool) : Nat → Nat → Nat
  | _, 0 => 0
  | i, n + 1 => if outcome i then n + 1 else lt_connect_loop outcome (i + 1) n

/-- What load_test.py's `main` does right after the connect loop:
`exit()` when `n_try == 0` (before any motor call), otherwise proceed
to the 6-pulse homing sequence. -/
inductive LtStart where
  | exit
  | homing
deriving DecidableEq

/-- The reconnect attempt inside `rotate_with_retry`:
`connect(args.api_key, args.api_key_id, args.smart_machine_domain)`.
`args` is a local variable of `main` and is not defined in
`rotate_with_retry`'s scope, so evaluating `args.api_key` raises
`NameError` before `connect` is ever called: the attempt can never
yield a session. -/
def lt_connect_via_args : Option Nat := none

/-- The `while True` reconnect loop of `rotate_with_retry`
(load_test.py lines 62-68), fuel-bounded: each iteration evaluates
`lt_connect_via_args`, breaks with the session on success, and catches
the exception and retries otherwise.  `none` means the loop is still
running when the fuel runs out. -/
def lt_reconnect : Nat → Option Nat
  | 0 => none
  | n + 1 =>
    match lt_connect_via_args with
    | some s => some s
    | none => lt_reconnect n

/-- `rotate_with_retry` (load_test.py lines 56-68): issue the pulse on
session `s`; if `set_power` returned, return (the local `smart_machine`
still bound to `s`); if it raised, run the reconnect loop and, had it
ever succeeded, return with the new session bound only to the local
`smart_machine`.  `none` = the call never returns (stuck reconnecting). -/
def rotate_with_retry (s : Nat) (pulse_ok : Bool) (fuel : Nat) : Option Nat :=
  if pulse_ok then some s
  else
    match lt_reconnect fuel with
    | some s2 => some s2
    | none => none

/-- One movement plan of load_test.py's `main`: `n` calls of
`rotate_with_retry` on the caller's session `s` (the caller never
rebinds `smart_machine`, and `rotate_with_retry` returns `None` in
Python, so any session its reconnect loop produced stays local).
Returns the pulse events issued, each stamped with the session used
and the pulse index, and whether the plan ran to completion. -/
def lt_plan_events (s : Nat) (ok : Nat → Bool) (fuel : Nat) :
    Nat → Nat → List (Nat × Nat) × Bool
  | 0, _ => ([], true)
  | n + 1, i =>
    match rotate_with_retry s (ok i) fuel with
    | some _ =>
      let r := lt_plan_events s ok fuel n (i + 1)
      ((s, i) :: r.1, r.2)
    | none => ([(s, i)], false)

/-- A run of several successive movement plans of load_test.py's main
loop, all issued through the one `smart_machine` binding made at
startup; stops when a plan fails to complete (the process is then stuck
inside `rotate_with_retry`). -/
def lt_plans_events (s : Nat) (fuel : Nat) : List (Nat × (Nat → Bool)) → List (Nat × Nat)
  | [] => []
  | (n, ok) :: rest =>
    let r := lt_plan_events s ok fuel n 0
    if r.2 then r.1 ++ lt_plans_events s fuel rest else r.1

/-- load_test.py startup (lines 29-43): run the 10-attempt connect
loop; on `n_try == 0` print the fatal message and `exit()` with no
pulses issued; otherwise proceed to the 6-pulse homing sequence. -/
def lt_startup (outcome : Nat → Bool) (s : Nat) (ok : Nat → Bool) (fuel : Nat) :
    LtStart × List (Nat × Nat) :=
  if lt_connect_loop outcome 0 10 = 0 then (LtStart.exit, [])
  else (LtStart.homing, (lt_plan_events s ok fuel 6 0).1)

/-- One iteration of load_test.py's main `while True` loop (lines
46-54): poll a target; if it equals the current position do nothing;
otherwise run the plan of `abs(slices)*2` pulses and, only after the
whole plan completed, assign `current_wheel_position = next`.
Returns (new position if the iteration completed, pulse events,
assignments made to `current_wheel_position` during the iteration). -/
def lt_main_step (s : Nat) (pos next : Int) (ok : Nat → Bool) (fuel : Nat) :
    Option Int × List (Nat × Nat) × List Int :=
  if pos = next then (some pos, [], [])
  else
    let r := lt_plan_events s ok fuel ((pos - next).natAbs * 2) 0
    if r.2 then (some next, r.1, [next]) else (none, r.1, [])

/-- The list of positions `pos - dir, pos - 2*dir, ...` of length `k`:
the values `current_wheel_position` takes during `k` successful pulses. -/
def stepTrace (pos dir : Int) : Nat → List Int
  | 0 => []
  | k + 1 => (pos - dir) :: stepTrace (pos - dir) dir k

/-- Every element of the list is one `dir`-step below its predecessor,
starting from `p`. -/
def oneStepChain (dir : Int) : Int → List Int → Prop
  | _, [] => True
  | p, q :: rest => q = p - dir ∧ oneStepChain dir q rest

lemma sign_cases (a : Int) (h : a ≠ 0) : Int.sign a = 1 ∨ Int.sign a = -1 := by
  rcases lt_trichotomy a 0 with h1 | h1 | h1
  · right; exact Int.sign_eq_neg_one_of_neg h1
  · exact absurd h1 h
  · left; exact Int.sign_eq_one_of_pos h1

lemma sign_natAbs_mul (a : Int) : (a.natAbs : Int) * Int.sign a = a := by
  rw [mul_comm]; exact Int.sign_mul_natAbs a

lemma pulse_run_succ (ok : Nat → Bool) (dir : Int) :
    ∀ (n i : Nat) (pos : Int), (∀ j, j < n → ok (i + j) = true) →
      pulse_run ok dir n i pos = ⟨pos - n * dir, false, n, stepTrace pos dir n⟩ := by
  intro n
  induction n with
  | zero => intro i pos _; simp [pulse_run, stepTrace]
  | succ m ih =>
    intro i pos h
    have h0 : ok i = true := by simpa using h 0 (Nat.succ_pos m)
    have hrest : ∀ j, j < m → ok (i + 1 + j) = true := by
      intro j hj
      have hx : i + 1 + j = i + (j + 1) := by omega
      rw [hx]; exact h (j + 1) (by omega)
    simp only [pulse_run, h0, if_true, ih (i + 1) (pos - dir) hrest]
    simp only [stepTrace, PulseRun.mk.injEq, and_true, true_and]
    push_cast; ring

lemma pulse_run_fail (ok : Nat → Bool) (dir : Int) :
    ∀ (k n i : Nat) (pos : Int), k < n → (∀ j, j < k → ok (i + j) = true) →
      ok (i + k) = false →
      pulse_run ok dir n i pos = ⟨pos - k * dir, true, k + 1, stepTrace pos dir k⟩ := by
  intro k
  induction k with
  | zero =>
    intro n i pos hn _ hf
    obtain ⟨m, rfl⟩ : ∃ m, n = m + 1 := ⟨n - 1, by omega⟩
    have h0 : ok i = false := by simpa using hf
    simp [pulse_run, h0, stepTrace]
  | succ k ih =>
    intro n i pos hn h hf
    obtain ⟨m, rfl⟩ : ∃ m, n = m + 1 := ⟨n - 1, by omega⟩
    have h0 : ok i = true := by simpa using h 0 (Nat.succ_pos k)
    have hrest : ∀ j, j < k → ok (i + 1 + j) = true := by
      intro j hj
      have hx : i + 1 + j = i + (j + 1) := by omega
      rw [hx]; exact h (j + 1) (by omega)
    have hf2 : ok (i + 1 + k) = false := by
      have hx : i + 1 + k = i + (k + 1) := by omega
      rw [hx]; exact hf
    simp only [pulse_run, h0, if_true, ih m (i + 1) (pos - dir) (by omega) hrest hf2]
    simp only [stepTrace, PulseRun.mk.injEq, and_true, true_and]
    push_cast; ring

lemma cw_run_cases (current t : Int) (ok : Nat → Bool) (h : current ≠ t) :
    cw_run current (some t) ok =
        some ⟨t, false, (current - t).natAbs,
              stepTrace current (Int.sign (current - t)) (current - t).natAbs⟩ ∨
      ∃ k, k < (current - t).natAbs ∧ (∀ j, j < k → ok j = true) ∧ ok k = false ∧
        cw_run current (some t) ok =
          some ⟨current - k * Int.sign (current - t), true, k + 1,
                stepTrace current (Int.sign (current - t)) k⟩ := by
  by_cases hall : ∀ j, j < (current - t).natAbs → ok j = true
  · left
    have := pulse_run_succ ok (Int.sign (current - t)) (current - t).natAbs 0 current
      (fun j hj => by simpa using hall j hj)
    simp only [cw_run, if_neg h, this]
    have hpos : current - ((current - t).natAbs : Int) * Int.sign (current - t) = t := by
      rw [sign_natAbs_mul]; ring
    rw [hpos]
  · right
    push_neg at hall
    obtain ⟨j, hj, hjf⟩ := hall
    have hjf' : ok j = false := by revert hjf; cases ok j <;> simp
    have hex : ∃ m, ok m = false := ⟨j, hjf'⟩
    refine ⟨Nat.find hex, ?_, ?_, Nat.find_spec hex, ?_⟩
    · exact lt_of_le_of_lt (Nat.find_min' hex hjf') hj
    · intro m hm
      have := Nat.find_min hex hm
      revert this; cases ok m <;> simp
    · have hk := Nat.find_spec hex
      have hlt : Nat.find hex < (current - t).natAbs :=
        lt_of_le_of_lt (Nat.find_min' hex hjf') hj
      have hmin : ∀ m, m < Nat.find hex → ok (0 + m) = true := by
        intro m hm
        have hzm : 0 + m = m := by omega
        rw [hzm]
        have := Nat.find_min hex hm
        revert this; cases ok m <;> simp
      have := pulse_run_fail ok (Int.sign (current - t)) (Nat.find hex)
        (current - t).natAbs 0 current hlt hmin (by simpa using hk)
      simp only [cw_run, if_neg h, this]

lemma stepTrace_mem (dir : Int) :
    ∀ (k : Nat) (pos q : Int), q ∈ stepTrace pos dir k →
      ∃ j : Nat, 1 ≤ j ∧ j ≤ k ∧ q = pos - (j : Int) * dir := by
  intro k
  induction k with
  | zero => intro pos q hq; simp [stepTrace] at hq
  | succ m ih =>
    intro pos q hq
    simp only [stepTrace, List.mem_cons] at hq
    rcases hq with rfl | hq
    · exact ⟨1, le_refl 1, by omega, by push_cast; ring⟩
    · obtain ⟨j, hj1, hjm, rfl⟩ := ih (pos - dir) q hq
      exact ⟨j + 1, by omega, by omega, by push_cast; ring⟩

lemma pulse_run_chain (ok : Nat → Bool) (dir : Int) :
    ∀ (n i : Nat) (pos : Int), oneStepChain dir pos (pulse_run ok dir n i pos).trace := by
  intro n
  induction n with
  | zero => intro i pos; simp [pulse_run, oneStepChain]
  | succ m ih =>
    intro i pos
    by_cases h0 : ok i = true
    · simp only [pulse_run, h0, if_true]
      exact ⟨rfl, ih (i + 1) (pos - dir)⟩
    · have h0' : ok i = false := by revert h0; cases ok i <;> simp
      simp [pulse_run, h0', oneStepChain]

lemma pos_bound (c t : Int) (k : Nat) (hc0 : 0 ≤ c) (hc5 : c ≤ 5)
    (ht0 : 0 ≤ t) (ht5 : t ≤ 5) (hk : k ≤ (c - t).natAbs) :
    0 ≤ c - (k : Int) * Int.sign (c - t) ∧ c - (k : Int) * Int.sign (c - t) ≤ 5 := by
  rcases lt_trichotomy (c - t) 0 with h1 | h1 | h1
  · rw [Int.sign_eq_neg_one_of_neg h1]
    have : ((c - t).natAbs : Int) = t - c := by omega
    omega
  · have : c = t := by omega
    subst this
    simp
    omega
  · rw [Int.sign_eq_one_of_pos h1]
    have : ((c - t).natAbs : Int) = c - t := by omega
    omega

lemma lt_reconnect_none : ∀ fuel : Nat, lt_reconnect fuel = none := by
  intro fuel
  induction fuel with
  | zero => rfl
  | succ n ih => simpa [lt_reconnect, lt_connect_via_args] using ih

lemma lt_connect_loop_eq_zero (outcome : Nat → Bool) :
    ∀ (n i : Nat), lt_connect_loop outcome i n = 0 ↔
      ∀ j, j < n → outcome (i + j) = false := by
  intro n
  induction n with
  | zero => intro i; simp [lt_connect_loop]
  | succ m ih =>
    intro i
    by_cases h0 : outcome i = true
    · simp only [lt_connect_loop, h0, if_true]
      constructor
      · intro h; omega
      · intro h
        have := h 0 (Nat.succ_pos m)
        simp [h0] at this
    · have h0' : outcome i = false := by revert h0; cases outcome i <;> simp
      simp only [lt_connect_loop, h0', Bool.false_eq_true, if_false]
      rw [ih (i + 1)]
      constructor
      · intro h j hj
        rcases Nat.eq_zero_or_pos j with rfl | hjp
        · simpa using h0'
        · have hx : i + j = i + 1 + (j - 1) := by omega
          rw [hx]; exact h (j - 1) (by omega)
      · intro h j hj
        have hx : i + 1 + j = i + (j + 1) := by omega
        rw [hx]; exact h (j + 1) (by omega)

lemma reader_connect_aux_none (catt : Nat → Bool) :
    ∀ (n i : Nat), reader_connect_aux catt i n = none ↔
      ∀ j, j < n → catt (i + j) = false := by
  intro n
  induction n with
  | zero => intro i; simp [reader_connect_aux]
  | succ m ih =>
    intro i
    by_cases h0 : catt i = true
    · simp only [reader_connect_aux, h0, if_true]
      constructor
      · intro h; cases h
      · intro h
        have := h 0 (Nat.succ_pos m)
        simp [h0] at this
    · have h0' : catt i = false := by revert h0; cases catt i <;> simp
      simp only [reader_connect_aux, h0', Bool.false_eq_true, if_false]
      rw [ih (i + 1)]
      constructor
      · intro h j hj
        rcases Nat.eq_zero_or_pos j with rfl | hjp
        · simpa using h0'
        · have hx : i + j = i + 1 + (j - 1) := by omega
          rw [hx]; exact h (j - 1) (by omega)
      · intro h j hj
        have hx : i + 1 + j = i + (j + 1) := by omega
        rw [hx]; exact h (j + 1) (by omega)

lemma reader_connect_none (catt : Nat → Bool) :
    reader_connect catt = none ↔ ∀ j, j < 50 → catt j = false := by
  rw [reader_connect, reader_connect_aux_none]
  constructor
  · intro h j hj; simpa using h j hj
  · intro h j hj; simpa using h j hj

lemma reader_cycle_connected_ne_crash (s : Nat) (pos : Int) (motorOk : Bool)
    (next : Option Int) (ok : Nat → Bool) :
    reader_cycle_connected s pos motorOk next ok ≠ CycleResult.crash := by
  unfold reader_cycle_connected
  by_cases hm : motorOk = true
  · simp only [hm, if_true]
    cases cw_run pos next ok with
    | none => simp
    | some r =>
      by_cases hr : r.raised = true
      · simp [hr]
      · have : r.raised = false := by revert hr; cases r.raised <;> simp
        simp [this]
  · have : motorOk = false := by revert hm; cases motorOk <;> simp
    simp [this]

lemma lt_plan_events_fst (s : Nat) (ok : Nat → Bool) (fuel : Nat) :
    ∀ (n i : Nat), ∀ e ∈ (lt_plan_events s ok fuel n i).1, e.1 = s := by
  intro n
  induction n with
  | zero => intro i e he; simp [lt_plan_events] at he
  | succ m ih =>
    intro i e he
    by_cases h0 : ok i = true
    · simp only [lt_plan_events, rotate_with_retry, h0, if_true] at he
      rcases List.mem_cons.mp he with rfl | he2
      · rfl
      · exact ih (i + 1) e he2
    · have h0' : ok i = false := by revert h0; cases ok i <;> simp
      simp only [lt_plan_events, rotate_with_retry, h0', Bool.false_eq_true, if_false,
        lt_reconnect_none fuel] at he
      rcases List.mem_cons.mp he with rfl | he2
      · rfl
      · simp at he2

lemma lt_plan_events_snd (s : Nat) (ok : Nat → Bool) (fuel : Nat) :
    ∀ (n i : Nat), ((lt_plan_events s ok fuel n i).1).map Prod.snd =
      List.range' i ((lt_plan_events s ok fuel n i).1).length := by
  intro n
  induction n with
  | zero => intro i; simp [lt_plan_events]
  | succ m ih =>
    intro i
    by_cases h0 : ok i = true
    · simp only [lt_plan_events, rotate_with_retry, h0, if_true]
      simp only [List.map_cons, List.length_cons, List.range'_succ, ih (i + 1)]
    · have h0' : ok i = false := by revert h0; cases ok i <;> simp
      simp only [lt_plan_events, rotate_with_retry, h0', Bool.false_eq_true, if_false,
        lt_reconnect_none fuel]
      simp [List.range'_succ]

/-- Claim C1: for every current and target, the movement plan has
direction sign(current - target) and slice count
abs(current - target) * granularity, is empty when they agree, and
never takes the shorter modular path around the 6-station ring (from 0
to 5 the count is 5 stations although the modular distance is 1);
concretely 0 to 5 at granularity 1 gives (-1, 5) and 2 to 5 at
granularity 2 gives (-1, 6). -/
theorem c1_compute_plan :
    (∀ (c t : Int) (g : Nat),
        (computePlan c t g).1 = Int.sign (c - t) ∧
        (computePlan c t g).2 = (c - t).natAbs * g) ∧
    (∀ (c : Int) (g : Nat), computePlan c c g = (0, 0)) ∧
    computePlan 0 5 1 = (-1, 5) ∧
    computePlan 2 5 2 = (-1, 6) ∧
    min ((0 - 5 : Int)).natAbs (6 - ((0 - 5 : Int)).natAbs) = 1 ∧
    (computePlan 0 5 1).2 = 5 := by
  refine ⟨?_, ?_, by decide, by decide, by decide, by decide⟩
  · intro c t g
    by_cases h : c = t
    · subst h; simp [computePlan]
    · simp [computePlan, h]
  · intro c g; simp [computePlan]

/-- Claim C2 refuted: in reader.py, a movement plan of one pulse from
position 1 to target 0 whose only set_power call raises leaves the
estimated position at 1 (zero updates), whereas the claim requires it
to reflect one update (position 1 - 1 * sign(1 - 0) = 0): the
optimistic decrement sits after the await and is skipped when the call
raises. -/
theorem c2_refuted :
    control_wheel 1 (some 0) (fun _ => false) = CwResult.caught 1 ∧
    (1 : Int) ≠ 1 - 1 * Int.sign (1 - 0) := ⟨by decide, by decide⟩

/-- Claim C2 amended: in the calendar variant the position update runs
once per successful pulse, so after a failure at pulse k (0-indexed)
the position reflects exactly k updates, one per pulse that returned;
in the random variant there is no per-pulse update at all: the position
variable is assigned at most once per plan, directly to the target. -/
theorem c2_amended_holds :
    (∀ (current t : Int) (ok : Nat → Bool) (k : Nat), current ≠ t →
        k < (current - t).natAbs → (∀ j, j < k → ok j = true) → ok k = false →
        control_wheel current (some t) ok =
          CwResult.caught (current - k * Int.sign (current - t))) ∧
    (∀ (s : Nat) (pos next : Int) (ok : Nat → Bool) (fuel : Nat),
        (lt_main_step s pos next ok fuel).2.2 = [] ∨
        (lt_main_step s pos next ok fuel).2.2 = [next]) := by
  constructor
  · intro current t ok k hne hk hok hfail
    have h := pulse_run_fail ok (Int.sign (current - t)) k (current - t).natAbs 0 current hk
      (fun j hj => by simpa using hok j hj) (by simpa using hfail)
    simp [control_wheel, cw_run, if_neg hne, h]
  · intro s pos next ok fuel
    by_cases h : pos = next
    · left; simp [lt_main_step, h]
    · cases hb : (lt_plan_events s ok fuel ((pos - next).natAbs * 2) 0).2 with
      | false => left; simp [lt_main_step, if_neg h, hb]
      | true => right; simp [lt_main_step, if_neg h, hb]

theorem c2_amended_holds_witness :
    control_wheel 2 (some 0) (fun i => decide (i = 0)) = CwResult.caught 1 := by
  have h3 : ∀ j, j < 1 → (fun i => decide (i = 0)) j = true := by
    intro j hj
    have hj0 : j = 0 := by omega
    simp [hj0]
  have h := c2_amended_holds.1 2 0 (fun i => decide (i = 0)) 1 (by decide) (by decide)
    h3 (by decide)
  have h2 : (2 - ((1 : Nat) : Int) * Int.sign (2 - 0) : Int) = 1 := by decide
  rw [h2] at h
  exact h

/-- Claim C3 (code bug): the reconnect loop inside rotate_with_retry
can never succeed, because it evaluates args.api_key where args is a
local variable of main and undefined in rotate_with_retry, raising
NameError on every attempt (caught and retried forever); consequently,
when a pulse of a plan fails, the remaining pulses are never attempted:
a 2-pulse plan whose first pulse fails issues exactly one pulse and
never completes, for any amount of reconnect fuel. -/
theorem c3_args_bug :
    (∀ fuel : Nat, lt_reconnect fuel = none) ∧
    (∀ (s fuel : Nat), lt_plan_events s (fun _ => false) fuel 2 0 = ([(s, 0)], false)) := by
  refine ⟨lt_reconnect_none, ?_⟩
  intro s fuel
  simp [lt_plan_events, rotate_with_retry, lt_reconnect_none fuel]

/-- Claim C4 refuted: with a live session 7 at position 1 and target 0,
a plan of one pulse whose set_power raises makes the cycle return with
the SAME session (robot stays 7, not discarded for reconnection) and
with position 1 (zero updates), whereas the claim requires the session
discarded and the position to reflect one update. -/
theorem c4_refuted :
    reader_cycle ⟨some 7, 1⟩ (fun _ => true) true (some 0) (fun _ => false) =
      CycleResult.next ⟨some 7, 1⟩ false ∧
    CycleResult.next (⟨some 7, 1⟩ : ReaderState) false ≠
      CycleResult.next ⟨none, 1 - 1 * Int.sign (1 - 0)⟩ false := ⟨by decide, by decide⟩

/-- Claim C4 amended: when pulse k (0-indexed) of a plan fails,
control_wheel catches it and returns the failure as a value; the main
loop then KEEPS the same session (it is discarded only when a call
raises at loop level), keeps the position reflecting the k successful
updates, skips the 15-unit sleep, and proceeds directly to the next
polling cycle against a fresh target instead of resuming the
interrupted plan. -/
theorem c4_amended_holds (s : Nat) (pos t : Int) (catt ok : Nat → Bool) (k : Nat)
    (hne : pos ≠ t) (hk : k < (pos - t).natAbs)
    (hok : ∀ j, j < k → ok j = true) (hfail : ok k = false) :
    reader_cycle ⟨some s, pos⟩ catt true (some t) ok =
      CycleResult.next ⟨some s, pos - k * Int.sign (pos - t)⟩ false := by
  have h := pulse_run_fail ok (Int.sign (pos - t)) k (pos - t).natAbs 0 pos hk
    (fun j hj => by simpa using hok j hj) (by simpa using hfail)
  simp [reader_cycle, reader_cycle_connected, cw_run, if_neg hne, h]

theorem c4_amended_holds_witness :
    reader_cycle ⟨some 7, 2⟩ (fun _ => true) true (some 0) (fun i => decide (i = 0)) =
      CycleResult.next ⟨some 7, 1⟩ false := by
  have h3 : ∀ j, j < 1 → (fun i => decide (i = 0)) j = true := by
    intro j hj
    have hj0 : j = 0 := by omega
    simp [hj0]
  have h := c4_amended_holds 7 2 0 (fun _ => true) (fun i => decide (i = 0)) 1
    (by decide) (by decide) h3 (by decide)
  have h2 : (2 - ((1 : Nat) : Int) * Int.sign (2 - 0) : Int) = 1 := by decide
  rw [h2] at h
  exact h

/-- Claim C5 refuted: from a disconnected state (session already
discarded after a transient loss), a cycle in which all 50 reconnect
attempts fail makes connect raise; the except handler then evaluates
robot.close() with robot = None, and that AttributeError escapes the
main loop unhandled: the process crashes, so a mid-sequence connection
loss can be fatal. -/
theorem c5_refuted :
    reader_cycle ⟨none, 0⟩ (fun _ => false) true (some 3) (fun _ => true) =
      CycleResult.crash := by decide

/-- Claim C5 amended: transient failures are swallowed and the loop
keeps cycling as long as every needed reconnect succeeds within its 50
attempts; a cycle crashes with an unhandled exception exactly when the
session slot is empty and all 50 reconnect attempts fail (the handler
then calls close() on the absent session). -/
theorem c5_amended_holds (st : ReaderState) (catt : Nat → Bool) (motorOk : Bool)
    (next : Option Int) (ok : Nat → Bool) :
    reader_cycle st catt motorOk next ok = CycleResult.crash ↔
      st.robot = none ∧ ∀ i, i < 50 → catt i = false := by
  obtain ⟨robot, pos⟩ := st
  cases robot with
  | some s =>
    simp only [reader_cycle]
    constructor
    · intro h
      exact absurd h (reader_cycle_connected_ne_crash s pos motorOk next ok)
    · rintro ⟨h, -⟩
      cases h
  | none =>
    simp only [reader_cycle]
    cases hc : reader_connect catt with
    | some s =>
      constructor
      · intro h
        exact absurd h (reader_cycle_connected_ne_crash s pos motorOk next ok)
      · rintro ⟨-, hall⟩
        rw [(reader_connect_none catt).mpr hall] at hc
        cases hc
    | none =>
      constructor
      · intro _
        exact ⟨by simp, (reader_connect_none catt).mp hc⟩
      · intro _
        rfl

/-- Claim C6 refuted: with a live session 3 at position 2 and no usable
target (get_next_wheel_position returned None), the cycle issues no
pulses and keeps position 2, but it does NOT leave the session
unchanged: the comparison/arithmetic on None raises a TypeError, the
outer handler closes and discards the session (robot becomes None,
to be reconnected next cycle), i.e. the cycle is treated as an error. -/
theorem c6_refuted :
    reader_cycle ⟨some 3, 2⟩ (fun _ => true) true none (fun _ => true) =
      CycleResult.next ⟨none, 2⟩ false ∧
    (none : Option Nat) ≠ some 3 := ⟨by decide, by decide⟩

/-- Claim C6 amended: when the target source yields None, the cycle
issues no pulses and leaves the estimated position unchanged, but the
None flows into the position arithmetic and raises a TypeError, so the
outer handler treats the cycle as an error: it closes and discards the
session (reconnected on the next cycle) and skips the sleep. -/
theorem c6_amended_holds (s : Nat) (pos : Int) (catt ok : Nat → Bool) :
    reader_cycle ⟨some s, pos⟩ catt true none ok =
      CycleResult.next ⟨none, pos⟩ false ∧
    cw_attempts pos none ok = 0 := by
  constructor
  · simp [reader_cycle, reader_cycle_connected, cw_run]
  · rfl

/-- Claim C7: if all 10 bounded initial-connect attempts of
load_test.py fail, the script prints the fatal message and exits with
no pulses issued; if any of the 10 attempts succeeds (including the
last), it does not exit and proceeds to the homing sequence. -/
theorem c7_connect_bound (outcome : Nat → Bool) (s : Nat) (ok : Nat → Bool) (fuel : Nat) :
    ((∀ i, i < 10 → outcome i = false) →
        lt_startup outcome s ok fuel = (LtStart.exit, [])) ∧
    ((∃ i, i < 10 ∧ outcome i = true) →
        (lt_startup outcome s ok fuel).1 = LtStart.homing) := by
  constructor
  · intro h
    have hz : lt_connect_loop outcome 0 10 = 0 :=
      (lt_connect_loop_eq_zero outcome 10 0).mpr (fun j hj => by simpa using h j hj)
    simp [lt_startup, hz]
  · rintro ⟨i, hi, hoi⟩
    have hz : lt_connect_loop outcome 0 10 ≠ 0 := by
      intro h
      have hfalse := (lt_connect_loop_eq_zero outcome 10 0).mp h i hi
      rw [Nat.zero_add, hoi] at hfalse
      cases hfalse
    simp [lt_startup, hz]

theorem c7_connect_bound_witness :
    lt_startup (fun _ => false) 0 (fun _ => true) 0 = (LtStart.exit, []) ∧
    (lt_startup (fun i => decide (i = 9)) 0 (fun _ => true) 0).1 = LtStart.homing := by
  constructor
  · exact (c7_connect_bound (fun _ => false) 0 (fun _ => true) 0).1 (fun i _ => rfl)
  · exact (c7_connect_bound (fun i => decide (i = 9)) 0 (fun _ => true) 0).2
      ⟨9, by decide, by decide⟩

/-- Claim C8 refuted: in the random variant, turning from position 0
to target 5 issues its plan of pulses but updates the estimated
position only once, at plan completion, assigning 5 directly: the
observable position sequence is 0 then 5, a jump of 5 stations, not a
monotone one-station-at-a-time stepping. -/
theorem c8_refuted :
    (lt_main_step 4 0 5 (fun _ => true) 0).2.2 = [5] ∧
    (lt_main_step 4 0 5 (fun _ => true) 0).1 = some 5 ∧
    ¬ ((5 - 0 : Int).natAbs ≤ 1) := ⟨by decide, by decide, by decide⟩

/-- Claim C8 amended: pulses are issued in exactly the computed order
in both variants (the random variant's pulse indices form the
contiguous ascending range); in the calendar variant the estimated
position is updated strictly in pulse order, one station per successful
pulse in the fixed direction sign(current - target) (a unit step when
the plan is nonempty); in the random variant the position is not
updated per pulse: it is assigned at most once, jumping directly to the
target when the plan completes. -/
theorem c8_amended_holds :
    (∀ (current t : Int) (ok : Nat → Bool) (r : PulseRun),
        cw_run current (some t) ok = some r →
        oneStepChain (Int.sign (current - t)) current r.trace) ∧
    (∀ current t : Int, current ≠ t →
        Int.sign (current - t) = 1 ∨ Int.sign (current - t) = -1) ∧
    (∀ (s : Nat) (ok : Nat → Bool) (fuel n i : Nat),
        ((lt_plan_events s ok fuel n i).1).map Prod.snd =
          List.range' i ((lt_plan_events s ok fuel n i).1).length) ∧
    (∀ (s : Nat) (pos next : Int) (ok : Nat → Bool) (fuel : Nat),
        (lt_main_step s pos next ok fuel).2.2 = [] ∨
        (lt_main_step s pos next ok fuel).2.2 = [next]) := by
  refine ⟨?_, ?_, lt_plan_events_snd, ?_⟩
  · intro current t ok r hr
    by_cases h : current = t
    · obtain rfl : (⟨current, false, 0, []⟩ : PulseRun) = r := by
        simpa [cw_run, if_pos h] using hr
      trivial
    · obtain rfl : pulse_run ok (Int.sign (current - t)) (current - t).natAbs 0 current = r := by
        simpa [cw_run, if_neg h] using hr
      exact pulse_run_chain ok (Int.sign (current - t)) (current - t).natAbs 0 current
  · intro current t h
    exact sign_cases (current - t) (sub_ne_zero.mpr h)
  · intro s pos next ok fuel
    by_cases h : pos = next
    · left; simp [lt_main_step, h]
    · cases hb : (lt_plan_events s ok fuel ((pos - next).natAbs * 2) 0).2 with
      | false => left; simp [lt_main_step, if_neg h, hb]
      | true => right; simp [lt_main_step, if_neg h, hb]

theorem c8_amended_holds_witness :
    oneStepChain (Int.sign (2 - 0 : Int)) 2
      ((⟨0, false, 2, [1, 0]⟩ : PulseRun)).trace ∧
    (Int.sign (2 - 0 : Int) = 1 ∨ Int.sign (2 - 0 : Int) = -1) := by
  constructor
  · exact c8_amended_holds.1 2 0 (fun _ => true) ⟨0, false, 2, [1, 0]⟩ (by decide)
  · exact c8_amended_holds.2.1 2 0 (by decide)

/-- Claim C9: the estimated position stays in 0..5 in both variants:
in the calendar variant, from any current and target in 0..5, the final
position and every intermediate optimistic value of a control_wheel
run (on any pulse-outcome sequence, success or failure) lie in 0..5;
in the random variant, a main-loop iteration from a position in 0..5
toward a target in 0..5 ends in 0..5. -/
theorem c9_range :
    (∀ (current t : Int) (ok : Nat → Bool), 0 ≤ current → current ≤ 5 →
        0 ≤ t → t ≤ 5 → ∀ r : PulseRun, cw_run current (some t) ok = some r →
        (0 ≤ r.pos ∧ r.pos ≤ 5) ∧ ∀ q ∈ r.trace, 0 ≤ q ∧ q ≤ 5) ∧
    (∀ (s : Nat) (pos next : Int) (ok : Nat → Bool) (fuel : Nat),
        0 ≤ pos → pos ≤ 5 → 0 ≤ next → next ≤ 5 →
        ∀ p : Int, (lt_main_step s pos next ok fuel).1 = some p → 0 ≤ p ∧ p ≤ 5) := by
  constructor
  · intro current t ok hc0 hc5 ht0 ht5 r hr
    by_cases h : current = t
    · obtain rfl : (⟨current, false, 0, []⟩ : PulseRun) = r := by
        simpa [cw_run, if_pos h] using hr
      refine ⟨⟨hc0, hc5⟩, ?_⟩
      intro q hq
      simp at hq
    · rcases cw_run_cases current t ok h with hcase | ⟨k, hk, -, -, hcase⟩
      · obtain rfl : (⟨t, false, (current - t).natAbs,
            stepTrace current (Int.sign (current - t)) (current - t).natAbs⟩ : PulseRun) = r := by
          have := hr.symm.trans hcase
          simpa using this.symm
        refine ⟨⟨ht0, ht5⟩, ?_⟩
        intro q hq
        obtain ⟨j, hj1, hjle, rfl⟩ :=
          stepTrace_mem (Int.sign (current - t)) (current - t).natAbs current q hq
        exact pos_bound current t j hc0 hc5 ht0 ht5 hjle
      · obtain rfl : (⟨current - k * Int.sign (current - t), true, k + 1,
            stepTrace current (Int.sign (current - t)) k⟩ : PulseRun) = r := by
          have := hr.symm.trans hcase
          simpa using this.symm
        refine ⟨pos_bound current t k hc0 hc5 ht0 ht5 (le_of_lt hk), ?_⟩
        intro q hq
        obtain ⟨j, hj1, hjle, rfl⟩ :=
          stepTrace_mem (Int.sign (current - t)) k current q hq
        exact pos_bound current t j hc0 hc5 ht0 ht5 (le_trans hjle (le_of_lt hk))
  · intro s pos next ok fuel hp0 hp5 hn0 hn5 p hp
    by_cases h : pos = next
    · simp only [lt_main_step, if_pos h, Option.some.injEq] at hp
      subst hp
      exact ⟨hp0, hp5⟩
    · cases hb : (lt_plan_events s ok fuel ((pos - next).natAbs * 2) 0).2 with
      | false =>
        simp [lt_main_step, if_neg h, hb] at hp
      | true =>
        simp only [lt_main_step, if_neg h, hb, if_true, Option.some.injEq] at hp
        subst hp
        exact ⟨hn0, hn5⟩

theorem c9_range_witness :
    cw_run 5 (some 0) (fun _ => true) = some ⟨0, false, 5, [4, 3, 2, 1, 0]⟩ ∧
    ((0 ≤ (0 : Int) ∧ (0 : Int) ≤ 5) ∧
      ∀ q ∈ ([4, 3, 2, 1, 0] : List Int), 0 ≤ q ∧ q ≤ 5) := by
  refine ⟨by decide, ?_⟩
  have h := c9_range.1 5 0 (fun _ => true) (by decide) (by decide) (by decide) (by decide)
    ⟨0, false, 5, [4, 3, 2, 1, 0]⟩ (by decide)
  exact h

/-- Claim C10: rotate_with_retry never replaces its caller's session
binding: main's smart_machine is bound once at startup, rotate_with_retry
returns nothing to rebind it, and any session its reconnect loop might
produce stays in its local variable, so every pulse of every plan —
including all pulses after failures — is stamped with the original
session handle. -/
theorem c10_session_frame (s fuel : Nat) (plans : List (Nat × (Nat → Bool))) :
    ∀ e ∈ lt_plans_events s fuel plans, e.1 = s := by
  induction plans with
  | nil =>
    intro e he
    simp [lt_plans_events] at he
  | cons p rest ih =>
    intro e he
    obtain ⟨n, ok⟩ := p
    cases hb : (lt_plan_events s ok fuel n 0).2 with
    | true =>
      simp only [lt_plans_events, hb, if_true] at he
      rcases List.mem_append.mp he with h1 | h2
      · exact lt_plan_events_fst s ok fuel n 0 e h1
      · exact ih e h2
    | false =>
      simp only [lt_plans_events, hb, Bool.false_eq_true, if_false] at he
      exact lt_plan_events_fst s ok fuel n 0 e he

theorem c10_session_frame_witness :
    ((4, 0) : Nat × Nat) ∈ lt_plans_events 4 0 [(2, fun _ => true)] ∧
    ((4, 0) : Nat × Nat).1 = 4 :=
  ⟨by decide, c10_session_frame 4 0 [(2, fun _ => true)] (4, 0) (by decide)⟩
